import Mathlib

/-!
Verification development for the repository acquisition and file-classification
pipeline of `Docagent.py` (an LLM-driven repository documentation generator).
Strings are embedded as `List Char`; Python string operations (`strip`, `split`,
`replace`, `lower`, substring tests) are defined character-by-character below.
Python's `str.lower` and the regex class `\w` are modelled on ASCII characters.
-/

/-- Convert a Lean string literal to the `List Char` representation used
throughout this development. -/
def cs (s : String) : List Char := s.toList

/-- Lowercase one character, modelling Python `str.lower` on ASCII input. -/
def lowerChar (c : Char) : Char := c.toLower

/-- Lowercase a string, modelling Python `str.lower` on ASCII input. -/
def lowerL (l : List Char) : List Char := l.map lowerChar

/-- The whitespace characters removed by Python `str.strip()`. -/
def isPyWs (c : Char) : Bool :=
  c = ' ' || c = '\t' || c = '\n' || c = '\r' || c = '\x0b' || c = '\x0c'

/-- Python `str.strip()`: remove leading and trailing whitespace. -/
def pyStrip (l : List Char) : List Char :=
  ((l.dropWhile isPyWs).reverse.dropWhile isPyWs).reverse

/-- Python `str.split(sep)` for a one-character separator: `"".split(sep)`
is `[""]`, and every occurrence of `sep` starts a new field. -/
def pySplit (sep : Char) : List Char → List (List Char)
  | [] => [[]]
  | c :: r =>
    if c = sep then [] :: pySplit sep r
    else
      match pySplit sep r with
      | [] => [[c]]
      | h :: t => (c :: h) :: t

/-- Last element of a list of fields (total; `pySplit` never returns `[]`). -/
def lastOf : List (List Char) → List Char
  | [] => []
  | [x] => x
  | _ :: x :: r => lastOf (x :: r)

/-- ASCII model of the regex character class `[\w\-\.]` used by
`_validate_github_url` (Docagent.py line 1461). -/
def isUrlChar (c : Char) : Bool := c.isAlphanum || c = '_' || c = '-' || c = '.'

/-- The literal prefix `https://github.com/` of the validation regex. -/
def ghStart : List Char :=
  ['h','t','t','p','s',':','/','/','g','i','t','h','u','b','.','c','o','m','/']

/-- Matcher for the regex tail `[\w\-\.]+/[\w\-\.]+/?$` after the literal
prefix: a nonempty greedy run of class characters, a `/`, a second nonempty
greedy run, then nothing or a single trailing `/`.  The class excludes `/`,
so the greedy runs are forced and backtracking cannot produce any further
match: this deterministic matcher decides exactly the regex's language. -/
def matchOwnerRepo (l : List Char) : Bool :=
  let a := l.takeWhile isUrlChar
  let r := l.dropWhile isUrlChar
  let r2 := r.tail
  let b := r2.takeWhile isUrlChar
  let r3 := r2.dropWhile isUrlChar
  !a.isEmpty && r.head? == some '/' && !b.isEmpty && (r3.isEmpty || r3 == ['/'])

/-- `_validate_github_url` (Docagent.py lines 1459-1462):
`re.match(r"^https://github\.com/[\w\-\.]+/[\w\-\.]+/?$", url.strip())`.
After `strip` the string cannot end in a newline, so the regex `$` is
end-of-string and `re.match` with both anchors is a full match. -/
def validateGithubUrl (url : List Char) : Bool :=
  let t := pyStrip url
  ghStart.isPrefixOf t && matchOwnerRepo (t.drop ghStart.length)

/-- The fixed host-URL shape stated by the spec, in the spec's words:
`https://<host>/<owner>/<name>[/]` with the fixed host `github.com` and
owner/name nonempty over the validator's character class. Written
independently of `validateGithubUrl` for comparison with it. -/
def specShape (s : List Char) : Prop :=
  ∃ owner repo tail, s = ghStart ++ owner ++ '/' :: (repo ++ tail) ∧
    owner ≠ [] ∧ owner.all isUrlChar ∧ repo ≠ [] ∧ repo.all isUrlChar ∧
    (tail = [] ∨ tail = ['/'])

/-- Remove every occurrence of `.git`, modelling Python
`str.replace(".git", "")` (left-to-right, non-overlapping). -/
def stripGitAll : List Char → List Char
  | '.' :: 'g' :: 'i' :: 't' :: r => stripGitAll r
  | c :: r => c :: stripGitAll r
  | [] => []

/-- Whether `.git` occurs as a contiguous substring. -/
def hasDotGit : List Char → Bool
  | '.' :: 'g' :: 'i' :: 't' :: _ => true
  | _ :: r => hasDotGit r
  | [] => false

/-- `repo_name = project_url.split("/")[-1].replace(".git", "")`
(Docagent.py line 1258). -/
def repoName (url : List Char) : List Char :=
  stripGitAll (lastOf (pySplit '/' url))

/-- The base working directory name (Docagent.py line 1259). -/
def workdirName : List Char := ['w','o','r','k','d','i','r']

/-- `workdir / repo_name` via `pathlib`: joining with the empty string
yields the base path unchanged (empty path segments contribute no parts). -/
def joinPath (base name : List Char) : List Char :=
  if name = [] then base else base ++ '/' :: name

/-- The clone destination `repo_path = workdir / repo_name`
(Docagent.py line 1261). -/
def clonePath (url : List Char) : List Char :=
  joinPath workdirName (repoName url)

/-- Contiguous-substring test, modelling Python's `in` operator on strings. -/
def isSubstr (pat : List Char) : List Char → Bool
  | [] => pat.isEmpty
  | c :: r => pat.isPrefixOf (c :: r) || isSubstr pat r

/-- Python `str.startswith(".")` on a filename. -/
def startsWithDot (name : List Char) : Bool := name.head? == some '.'

/-- `Path(name).suffix.lower()`: the extension from the last `.`, empty when
the last `.` is at index 0 or at the end, lowercased. -/
def extOf (name : List Char) : List Char :=
  let seg := name.reverse.takeWhile (fun c => decide (c ≠ '.'))
  if 0 < seg.length ∧ seg.length < name.length - 1 then
    lowerL ('.' :: seg.reverse)
  else []

/-! ## Acquirer model (Docagent.py lines 1233-1497)

`clone_repository` and its helpers perform network probes, filesystem
removals, sleeps and `git clone` subprocess calls.  The environment record
`CloneEnv` fixes the outcome of each effectful step; `cloneRepository`
returns the final outcome tag (which `return` site of the Python function
fires) together with the trace of effectful actions performed, modelling
lines 1233-1378 (the post-clone verification of lines 1380-1434 is behind
every property stated here and not modelled). -/

/-- Outcome of the existence probe `urllib.request.urlopen(request, timeout=15)`
in `_check_repository_exists` (lines 1474-1497): a response with an HTTP status
code, an `HTTPError`, a non-HTTP `URLError` (DNS failure and the like), or any
other exception (raised e.g. by `Request` construction). -/
inductive ProbeOutcome
  | success (code : Nat)
  | httpError (code : Nat)
  | urlError
  | otherExn
deriving DecidableEq

/-- `_check_repository_exists` (lines 1474-1497): 200 responses succeed; any
`HTTPError` (404, 403, other) returns False; a `URLError` returns False; any
other exception is caught by the outer handler, which returns True. -/
def checkRepositoryExists : ProbeOutcome → Bool
  | .success c => c == 200
  | .httpError _ => false
  | .urlError => false
  | .otherExn => true

/-- The three clone command shapes (lines 1312-1317). -/
inductive GitCmd
  | shallowSingle
  | singleBranch
  | fullClone
deriving DecidableEq

def gitCmdFor (attempt : Nat) : GitCmd :=
  if attempt = 0 then .shallowSingle else if attempt = 1 then .singleBranch else .fullClone

/-- Outcome of one `subprocess.run` git-clone invocation (lines 1321-1374):
success, a nonzero exit whose stderr contains the directory-not-empty /
not-found / permission-denied markers or none of them, a
`subprocess.TimeoutExpired` after 300s, or another exception. -/
inductive GitOutcome
  | ok
  | errDirNotEmpty
  | errNotFound
  | errPermission
  | errOther
  | timedOut
  | raised
deriving DecidableEq

/-- The three escalating removal strategies (lines 1273-1281):
`shutil.rmtree`, `_force_remove_directory` (chmod 0o777 on every contained
file and directory, then `rmtree`, lines 1436-1457), shell-level `rm -rf`. -/
inductive RmMethod
  | rmtree
  | chmodRmtree
  | shellRm
deriving DecidableEq

def rmMethodFor (attempt : Nat) : RmMethod :=
  if attempt = 0 then .rmtree else if attempt = 1 then .chmodRmtree else .shellRm

/-- One observable effectful step of `clone_repository`. -/
inductive Act
  | connectivityProbe
  | existenceProbe
  | removeAttempt (m : RmMethod)
  | sleepSecs (n : Nat)
  | renameAside
  | gitClone (cmd : GitCmd) (timeoutSecs : Nat)
  | retryCleanup
deriving DecidableEq

/-- Environment fixing the outcome of every effectful step: connectivity
probe result, existence probe result, whether a directory already exists at
the target path, whether removal attempt `i` leaves the directory gone,
whether the rename-aside succeeds, and the outcome of clone attempt `i`. -/
structure CloneEnv where
  connectivityOk : Bool
  probe : ProbeOutcome
  targetExists : Bool
  removeSucceeds : Nat → Bool
  renameOk : Bool
  git : Nat → GitOutcome

/-- Which `return` site of `clone_repository` fires (`cloneOk` means the
clone retry loop succeeded and control reached the verification tail). -/
inductive CloneResult
  | invalidUrl
  | noConnectivity
  | repoUnavailable
  | cleanupFailed
  | cloneFailed
  | cloneOk
deriving DecidableEq

/-- The removal retry loop (lines 1270-1293), on the list of remaining
attempt indices: try the attempt's method; stop when the directory is gone;
otherwise sleep 1 second when attempts remain (`if attempt < 2`). -/
def cleanupAttempts (env : CloneEnv) : List Nat → Bool × List Act
  | [] => (false, [])
  | i :: rest =>
    if env.removeSucceeds i then (true, [Act.removeAttempt (rmMethodFor i)])
    else
      match rest with
      | [] => (false, [Act.removeAttempt (rmMethodFor i)])
      | j :: rest2 =>
        let next := cleanupAttempts env (j :: rest2)
        (next.1, Act.removeAttempt (rmMethodFor i) :: Act.sleepSecs 1 :: next.2)

/-- Lines 1266-1302: when a directory exists at the target path, run the
removal retry loop; if it is still present afterwards, rename it aside with
a timestamp suffix; a failed rename returns False (run aborted). -/
def cleanupPhase (env : CloneEnv) : Bool × List Act :=
  if env.targetExists then
    let res := cleanupAttempts env [0, 1, 2]
    if res.1 then (true, res.2)
    else (env.renameOk, res.2 ++ [Act.renameAside])
  else (true, [])

/-- The clone retry loop (lines 1304-1374) on the list of remaining attempt
indices.  Each attempt runs the widening command for its index with a
300-second timeout.  Not-found and permission-denied stderr stop retrying at
once; directory-not-empty triggers `rmtree(ignore_errors=True)` plus a
2-second sleep and `continue`; a generic git failure sleeps
`(attempt+1)*3` seconds when attempts remain; a timeout or other exception
proceeds directly to the next attempt. -/
def cloneAttempts (env : CloneEnv) : List Nat → Bool × List Act
  | [] => (false, [])
  | i :: rest =>
    match env.git i, rest with
    | .ok, _ => (true, [Act.gitClone (gitCmdFor i) 300])
    | .errNotFound, _ => (false, [Act.gitClone (gitCmdFor i) 300])
    | .errPermission, _ => (false, [Act.gitClone (gitCmdFor i) 300])
    | .errDirNotEmpty, [] =>
      (false, [Act.gitClone (gitCmdFor i) 300, Act.retryCleanup, Act.sleepSecs 2])
    | .errDirNotEmpty, j :: rest2 =>
      let next := cloneAttempts env (j :: rest2)
      (next.1,
        Act.gitClone (gitCmdFor i) 300 :: Act.retryCleanup :: Act.sleepSecs 2 :: next.2)
    | .errOther, [] => (false, [Act.gitClone (gitCmdFor i) 300])
    | .errOther, j :: rest2 =>
      let next := cloneAttempts env (j :: rest2)
      (next.1, Act.gitClone (gitCmdFor i) 300 :: Act.sleepSecs ((i + 1) * 3) :: next.2)
    | .timedOut, [] => (false, [Act.gitClone (gitCmdFor i) 300])
    | .timedOut, j :: rest2 =>
      let next := cloneAttempts env (j :: rest2)
      (next.1, Act.gitClone (gitCmdFor i) 300 :: next.2)
    | .raised, [] => (false, [Act.gitClone (gitCmdFor i) 300])
    | .raised, j :: rest2 =>
      let next := cloneAttempts env (j :: rest2)
      (next.1, Act.gitClone (gitCmdFor i) 300 :: next.2)

/-- `clone_repository` (lines 1233-1378): validate the URL, probe
connectivity, probe existence, clean the target path, then run the clone
retry loop.  Returns the outcome tag and the trace of effectful actions. -/
def cloneRepository (url : List Char) (env : CloneEnv) : CloneResult × List Act :=
  if validateGithubUrl url = false then (.invalidUrl, [])
  else if env.connectivityOk = false then (.noConnectivity, [Act.connectivityProbe])
  else if checkRepositoryExists env.probe = false then
    (.repoUnavailable, [Act.connectivityProbe, Act.existenceProbe])
  else
    let pre := [Act.connectivityProbe, Act.existenceProbe]
    let clean := cleanupPhase env
    if clean.1 = false then (.cleanupFailed, pre ++ clean.2)
    else
      let cl := cloneAttempts env [0, 1, 2]
      if cl.1 then (.cloneOk, pre ++ clean.2 ++ cl.2)
      else (.cloneFailed, pre ++ clean.2 ++ cl.2)

/-- The git commands appearing in a trace, in order. -/
def gitCmdsOf (tr : List Act) : List GitCmd :=
  tr.filterMap (fun a => match a with | .gitClone c _ => some c | _ => none)

/-- The removal methods appearing in a trace, in order. -/
def rmMethodsOf (tr : List Act) : List RmMethod :=
  tr.filterMap (fun a => match a with | .removeAttempt m => some m | _ => none)

/-! ## Key-file detection model (`find_key_files`, Docagent.py lines 512-629) -/

/-- A file as seen by the `os.walk` loop of `find_key_files`: its base name,
the `str()` of its directory relative to the repository root, and its
relative path (the value stored in the per-category lists). -/
structure KFile where
  fname : List Char
  dirStr : List Char
  path : List Char
deriving DecidableEq

/-- The seven key-file categories (lines 517-546). -/
inductive KeyCat
  | entry
  | projConfig
  | docsCat
  | buildDeploy
  | envCfg
  | testsCat
  | frontend
deriving DecidableEq

/-- The fixed pattern catalog (lines 517-546), verbatim. -/
def keyPatterns : KeyCat → List (List Char)
  | .entry =>
    [cs r"main.py", cs r"index.js", cs r"app.py", cs r"server.py", cs r"main.go",
     cs r"index.html", cs r"App.js", cs r"__init__.py", cs r"main.java", cs r"index.php"]
  | .projConfig =>
    [cs r"package.json", cs r"requirements.txt", cs r"pom.xml", cs r"Cargo.toml",
     cs r"go.mod", cs r"setup.py", cs r"pyproject.toml", cs r"composer.json", cs r"build.gradle"]
  | .docsCat =>
    [cs r"README.md", cs r"README.rst", cs r"README.txt", cs r"CHANGELOG.md",
     cs r"LICENSE", cs r"CONTRIBUTING.md", cs r"docs/", cs r"INSTALL.md"]
  | .buildDeploy =>
    [cs r"Makefile", cs r"Dockerfile", cs r"docker-compose.yml",
     cs r".github/workflows/", cs r"Jenkinsfile", cs r"build.gradle", cs r"webpack.config.js"]
  | .envCfg =>
    [cs r"config.py", cs r"settings.py", cs r".env", cs r"config.json",
     cs r"webpack.config.js", cs r"tsconfig.json", cs r".eslintrc", cs r"pytest.ini"]
  | .testsCat =>
    [cs r"test_", cs r"_test.py", cs r".test.js", cs r"spec.js", cs r"tests/",
     cs r"test/", cs r"pytest.ini", cs r"jest.config.js"]
  | .frontend =>
    [cs r"style.css", cs r"main.css", cs r"app.css", cs r"index.html",
     cs r"template", cs r"static/", cs r"public/", cs r"assets/"]

/-- The four-way pattern test (lines 574-577): directory-name substring for
patterns ending in `/` (pattern not lowercased); raw pattern as substring of
the lowercased filename; case-insensitive exact match; case-insensitive
prefix match. -/
def patMatch (pat : List Char) (f : KFile) : Bool :=
  (pat.getLast? == some '/' && isSubstr pat.dropLast f.dirStr) ||
  isSubstr pat (lowerL f.fname) ||
  lowerL pat == lowerL f.fname ||
  (lowerL pat).isPrefixOf (lowerL f.fname)

/-- Processing of one file for one category (lines 564-595): hidden files are
skipped; otherwise each matching pattern appends the file's relative path
while the category holds fewer than 12 entries. -/
def catStep (cat : KeyCat) (acc : List (List Char)) (f : KFile) : List (List Char) :=
  if startsWithDot f.fname then acc
  else
    (keyPatterns cat).foldl
      (fun a pat => if patMatch pat f && a.length < 12 then a ++ [f.path] else a) acc

/-- `find_key_files` restricted to one category: the walk yields directories
in order (at most 2000 of them, lines 553-555) and their files are processed
in order. -/
def findKeyFilesCat (walk : List (List KFile)) (cat : KeyCat) : List (List Char) :=
  ((walk.take 2000).flatten).foldl (catStep cat) []

/-- Number of pattern matches (hence attempted insertions) one file
produces for a category. -/
def catMatchCount (cat : KeyCat) (f : KFile) : Nat :=
  if startsWithDot f.fname then 0 else (keyPatterns cat).countP (fun pat => patMatch pat f)

/-- The uncapped insertion stream for a category over a file sequence. -/
def uncappedCat (cat : KeyCat) (files : List KFile) : List (List Char) :=
  files.flatMap (fun f => List.replicate (catMatchCount cat f) f.path)

/-! ## Code-structure classifier model (`analyze_code_structure`,
Docagent.py lines 400-510)

Each file visited by the walk carries the outcome of its effectful steps:
`stat().st_size` and the text analysis of its decoded content (non-blank
line count plus heuristic function/class counts, lines 436-454), either of
which may raise one of the caught error classes (`UnicodeDecodeError`,
`PermissionError`, `OSError`, line 469).  `visited`/`skipped` are ghost
observation counters; `records` counts files entering `language_stats`
(one per successfully analyzed code file); `errorDelta` tracks
`self.error_count`, which no per-file failure touches. -/

structure AFile where
  name : List Char
  statSize : Except Unit Nat
  analysis : Except Unit (Nat × Nat × Nat)
-- no DecidableEq: Except fields

structure AStats where
  visited : Nat
  records : Nat
  skipped : Nat
  importantCount : Nat
  errorDelta : Nat
deriving DecidableEq

/-- The code extensions retained by the classifier (line 429). -/
def codeExts : List (List Char) :=
  [cs r".py", cs r".js", cs r".ts", cs r".java", cs r".cpp", cs r".c", cs r".h",
   cs r".go", cs r".rs", cs r".php", cs r".rb"]

/-- The exact important-name list of line 458. -/
def analyzeImportantNames : List (List Char) :=
  [cs r"main.py", cs r"index.js", cs r"app.py", cs r"server.py", cs r"main.go"]

/-- Componentwise sum of two `AStats` (the loop body of the walk only ever
increments counters, so each file's effect is a state-independent delta). -/
def addStats (a b : AStats) : AStats :=
  ⟨a.visited + b.visited, a.records + b.records, a.skipped + b.skipped,
   a.importantCount + b.importantCount, a.errorDelta + b.errorDelta⟩

/-- Per-file effect of the walk body (lines 420-470): skip hidden names,
skip non-code extensions, skip files over 500KB or whose stat raises, skip
(via the `except` of line 469) files whose read/analysis raises; otherwise
record the file and, when it has over 50 non-blank lines or an
important-looking name, add it to `important_files`.  No branch touches
`self.error_count`. -/
def analyzeContrib (f : AFile) : AStats :=
  if startsWithDot f.name then ⟨1, 0, 1, 0, 0⟩
  else if !(codeExts.contains (extOf f.name)) then ⟨1, 0, 1, 0, 0⟩
  else
    match f.statSize with
    | .error _ => ⟨1, 0, 1, 0, 0⟩
    | .ok size =>
      if size > 500 * 1024 then ⟨1, 0, 1, 0, 0⟩
      else
        match f.analysis with
        | .error _ => ⟨1, 0, 1, 0, 0⟩
        | .ok (lines, _funcs, _classes) =>
          let important : Bool :=
            decide (lines > 50) || analyzeImportantNames.contains (lowerL f.name) ||
            isSubstr (cs r"main") (lowerL f.name) || isSubstr (cs r"app") (lowerL f.name)
          ⟨1, 1, 0, if important then 1 else 0, 0⟩

def analyzeFileStep (s : AStats) (f : AFile) : AStats :=
  addStats s (analyzeContrib f)

/-- Directory-level walk (lines 415-474): process each directory's files,
stopping after any directory that pushes `important_files` past 50. -/
def analyzeDirs : List (List AFile) → AStats → AStats
  | [], s => s
  | d :: rest, s =>
    let s2 := d.foldl analyzeFileStep s
    if s2.importantCount > 50 then s2 else analyzeDirs rest s2

def analyzeCodeStructure (walk : List (List AFile)) : AStats :=
  analyzeDirs walk ⟨0, 0, 0, 0, 0⟩

/-! ## Ranked-file selection model (`detailed_file_analysis`,
Docagent.py lines 631-748) -/

structure DFile where
  name : List Char
  path : List Char
  size : Nat
deriving DecidableEq

/-- The high-value name patterns of lines 640-643, verbatim. -/
def detailedPatterns : List (List Char) :=
  [cs r"main.py", cs r"app.py", cs r"server.py", cs r"index.js", cs r"main.go",
   cs r"README.md", cs r"setup.py", cs r"package.json", cs r"requirements.txt"]

/-- The code extensions of the priority-5 branch (line 668). -/
def detailedCodeExts : List (List Char) :=
  [cs r".py", cs r".js", cs r".ts", cs r".java", cs r".go"]

/-- Lines 651-674: hidden files are skipped; files whose lowercased name has
a high-value pattern as substring get priority 10; otherwise code files over
1000 bytes get priority 5; everything else is not collected. -/
def classifyDetailed (f : DFile) : Option (DFile × Nat) :=
  if startsWithDot f.name then none
  else if detailedPatterns.any (fun pat => isSubstr pat (lowerL f.name)) then some (f, 10)
  else if detailedCodeExts.contains (extOf f.name) && decide (f.size > 1000) then some (f, 5)
  else none

/-- The comparison realised by Python's stable ascending sort on the key
`(-priority, -size)` (line 684). -/
def detailedLe (a b : DFile × Nat) : Bool :=
  decide (b.2 < a.2) || (a.2 == b.2 && decide (b.1.size ≤ a.1.size))

/-- Stable insertion into a sorted list: `x` goes in front of the first
element it compares less-or-equal to. -/
def insertLe (le : α → α → Bool) (x : α) : List α → List α
  | [] => [x]
  | y :: r => if le x y then x :: y :: r else y :: insertLe le x r

/-- Stable sort by a Boolean total preorder; on such a preorder this
produces exactly the output of Python's stable `list.sort`. -/
def sortLe (le : α → α → Bool) : List α → List α
  | [] => []
  | x :: r => insertLe le x (sortLe le r)

/-- `detailed_file_analysis` target selection (lines 645-685): collect the
first `2 * max_files` classified candidates in walk order, sort by
descending (priority, size), keep the first `max_files`. -/
def detailedFileAnalysis (maxFiles : Nat) (files : List DFile) : List (DFile × Nat) :=
  (sortLe detailedLe ((files.filterMap classifyDetailed).take (maxFiles * 2))).take maxFiles

/-! ## File-read cache model (`file_read`, Docagent.py lines 318-398)

The filesystem is a map from path to file kind; a regular file carries the
outcome of `stat()` and, for each of the four encodings tried in order
(utf-8, latin-1, cp1252, ascii), the outcome of `read_text` (success,
`UnicodeDecodeError` — try the next encoding — or another exception, which
breaks the loop).  The rendered markdown result is modelled by the
constructor-tagged `FRResult`, whose `success` case carries every field the
rendering depends on. -/

inductive EncRead
  | okRead (content : List Char)
  | unicodeErr
  | otherErr
deriving DecidableEq

inductive FKind
  | missing
  | notFile
  | file (statSize : Except Unit Nat) (reads : Nat → EncRead)

inductive FRResult
  | notFound (p : List Char)
  | notAFile (p : List Char)
  | statErr (p : List Char)
  | tooLarge (p : List Char)
  | emptyFile (p : List Char)
  | undecodable (p : List Char)
  | binaryFile (p : List Char)
  | success (p : List Char) (size : Nat) (content : List Char) (enc : Nat)
deriving DecidableEq

/-- First-match association lookup, modelling the dict `self.file_cache`. -/
def lookupA (cache : List (List Char × FRResult)) (p : List Char) : Option FRResult :=
  match cache with
  | [] => none
  | (k, v) :: r => if k = p then some v else lookupA r p

/-- The encoding loop of lines 350-358. -/
def decodeLoop (reads : Nat → EncRead) : List Nat → Option (List Char × Nat)
  | [] => none
  | e :: rest =>
    match reads e with
    | .okRead c => some (c, e)
    | .unicodeErr => decodeLoop reads rest
    | .otherErr => none

def nulChar : Char := Char.ofNat 0

/-- `file_read` (lines 318-398): existence and is-file checks, cache hit,
size ceiling (300KB) and empty-file checks, encoding loop, NUL-byte binary
sniff on the first 1000 characters, then the rendered result, cached only
while the cache holds fewer than 30 entries. -/
def fileRead (fs : List Char → FKind) (cache : List (List Char × FRResult)) (p : List Char) :
    FRResult × List (List Char × FRResult) :=
  match fs p with
  | .missing => (.notFound p, cache)
  | .notFile => (.notAFile p, cache)
  | .file statSize reads =>
    match lookupA cache p with
    | some r => (r, cache)
    | none =>
      match statSize with
      | .error _ => (.statErr p, cache)
      | .ok size =>
        if size > 300 * 1024 then (.tooLarge p, cache)
        else if size = 0 then (.emptyFile p, cache)
        else
          match decodeLoop reads [0, 1, 2, 3] with
          | none => (.undecodable p, cache)
          | some (content, enc) =>
            if (content.take 1000).contains nulChar then (.binaryFile p, cache)
            else
              let r := FRResult.success p size content enc
              if cache.length < 30 then (r, cache ++ [(p, r)]) else (r, cache)


/-! ## Concrete inputs used by witnesses and counterexamples -/

/-- An environment in which every effectful step succeeds. -/
def envAllGood : CloneEnv :=
  { connectivityOk := true
    probe := .success 200
    targetExists := false
    removeSucceeds := (fun _ => true)
    renameOk := true
    git := (fun _ => .ok) }

/-- Environment whose existence probe raises a non-URL exception. -/
def envProbeExn : CloneEnv := { envAllGood with probe := .otherExn }

/-- Environment whose existence probe raises a `URLError`. -/
def envProbeUrlErr : CloneEnv := { envAllGood with probe := .urlError }

/-- Environment exercising the clone retry path: generic git failure, then
timeout, then success. -/
def envRetry : CloneEnv :=
  { envAllGood with
    git := (fun i => if i = 0 then .errOther else if i = 1 then .timedOut else .ok) }

/-- Environment exercising the full cleanup escalation: a stale directory
that no removal attempt eliminates, with a successful rename. -/
def envStaleDir : CloneEnv :=
  { envAllGood with
    targetExists := true
    removeSucceeds := (fun _ => false)
    renameOk := true }

/-- Thirteen files, all matching the entry-points category once, named
`main.py1` … `main.py13` in the repository root. -/
def c2files : List KFile :=
  (List.range 13).map (fun i =>
    { fname := cs r"main.py" ++ cs (toString (i + 1))
      dirStr := cs r"."
      path := cs r"main.py" ++ cs (toString (i + 1)) })

/-- A one-file filesystem for the cache witness: `a.py` holding `hello`. -/
def fsW : List Char → FKind :=
  fun p => if p = cs r"a.py" then FKind.file (.ok 5) (fun _ => .okRead (cs r"hello")) else .missing

/-- The same path after its on-disk content changed to `world!`. -/
def fsWChanged : List Char → FKind :=
  fun p => if p = cs r"a.py" then FKind.file (.ok 6) (fun _ => .okRead (cs r"world!")) else .missing

/-! ## Theorems -/

/-- Once validation, connectivity and the existence probe all pass, the run
proceeds to the cleanup/clone step: the only remaining outcomes are the
cleanup-failure, clone-failure and clone-success return sites. -/
theorem cloneRepository_gate (url : List Char) (env : CloneEnv)
    (hv : validateGithubUrl url = true) (hc : env.connectivityOk = true)
    (hp : checkRepositoryExists env.probe = true) :
    (cloneRepository url env).1 = CloneResult.cleanupFailed ∨
    (cloneRepository url env).1 = CloneResult.cloneFailed ∨
    (cloneRepository url env).1 = CloneResult.cloneOk := by
  unfold cloneRepository
  simp only [hv, hc, hp, Bool.true_eq_false, if_false]
  by_cases h1 : (cleanupPhase env).1 = false
  · simp [h1]
  · by_cases h2 : (cloneAttempts env [0, 1, 2]).1
    · simp [h1, h2]
    · simp [h1, h2]

/-- C1, counterexample to the claim as stated: the claim says every probe
exception that is not an HTTP status response lets acquisition proceed to
the clone step, yet a `URLError` — e.g. a DNS hiccup, exactly the spec's
example of a reason unrelated to the resource — is not an HTTP response and
still aborts acquisition at this gate (`_check_repository_exists` returns
False from its `except urllib.error.URLError` arm, line 1491-1493). -/
theorem c1_probe_counterexample :
    checkRepositoryExists ProbeOutcome.urlError = false ∧
    cloneRepository (cs r"https://github.com/a/b") envProbeUrlErr =
      (CloneResult.repoUnavailable, [Act.connectivityProbe, Act.existenceProbe]) := by
  constructor
  · rfl
  · decide

/-- C1, amended: at the existence-probe gate, HTTP error responses (404,
403, other codes), non-200 success responses, and URL-level errors (DNS
failures and the like) all abort acquisition; only probe exceptions that
are neither HTTP responses nor URLErrors are treated permissively, and in
that case the run proceeds past the gate to the cleanup/clone step. -/
theorem c1_probe_amended :
    (∀ c, checkRepositoryExists (ProbeOutcome.httpError c) = false) ∧
    checkRepositoryExists ProbeOutcome.urlError = false ∧
    checkRepositoryExists ProbeOutcome.otherExn = true ∧
    (∀ c, c ≠ 200 → checkRepositoryExists (ProbeOutcome.success c) = false) ∧
    (∀ url env, validateGithubUrl url = true → env.connectivityOk = true →
      env.probe = ProbeOutcome.otherExn →
      (cloneRepository url env).1 = CloneResult.cleanupFailed ∨
      (cloneRepository url env).1 = CloneResult.cloneFailed ∨
      (cloneRepository url env).1 = CloneResult.cloneOk) := by
  refine ⟨fun c => rfl, rfl, rfl, fun c h => ?_, fun url env hv hc hp => ?_⟩
  · simpa [checkRepositoryExists] using h
  · exact cloneRepository_gate url env hv hc (by rw [hp]; rfl)

/-- Witness for `c1_probe_amended` at concrete inputs. -/
theorem c1_probe_amended_witness :
    checkRepositoryExists (ProbeOutcome.success 301) = false ∧
    ((cloneRepository (cs r"https://github.com/a/b") envProbeExn).1 = CloneResult.cleanupFailed ∨
     (cloneRepository (cs r"https://github.com/a/b") envProbeExn).1 = CloneResult.cloneFailed ∨
     (cloneRepository (cs r"https://github.com/a/b") envProbeExn).1 = CloneResult.cloneOk) :=
  ⟨c1_probe_amended.2.2.2.1 301 (by decide),
   c1_probe_amended.2.2.2.2 (cs r"https://github.com/a/b") envProbeExn (by decide) rfl rfl⟩

/-- Appending a fresh entry never disturbs an existing cache binding. -/
theorem lookupA_append_right {cache : List (List Char × FRResult)} {q : List Char}
    {r : FRResult} (h : lookupA cache q = some r) (x : List Char × FRResult) :
    lookupA (cache ++ [x]) q = some r := by
  induction cache with
  | nil => simp [lookupA] at h
  | cons kv rest ih =>
    obtain ⟨k, v⟩ := kv
    by_cases hk : k = q
    · simp only [lookupA, hk, if_pos] at h ⊢
      simpa using h
    · simp only [List.cons_append, lookupA, hk, if_neg, if_false] at h ⊢
      exact ih h

/-- Every `file_read` call leaves the cache unchanged or appends exactly one
entry for the requested path, the latter only when the cache held fewer
than 30 entries. -/
theorem fileRead_cache_cases (fs : List Char → FKind) (cache : List (List Char × FRResult))
    (p : List Char) :
    (fileRead fs cache p).2 = cache ∨
      ∃ v, (fileRead fs cache p).2 = cache ++ [(p, v)] ∧ cache.length < 30 := by
  unfold fileRead
  cases hfs : fs p with
  | missing => exact Or.inl rfl
  | notFile => exact Or.inl rfl
  | file statSize reads =>
    cases hc : lookupA cache p with
    | some r => exact Or.inl rfl
    | none =>
      cases statSize with
      | error e => exact Or.inl rfl
      | ok size =>
        dsimp only
        by_cases h1 : size > 300 * 1024
        · rw [if_pos h1]; exact Or.inl rfl
        · rw [if_neg h1]
          by_cases h2 : size = 0
          · rw [if_pos h2]; exact Or.inl rfl
          · rw [if_neg h2]
            cases hd : decodeLoop reads [0, 1, 2, 3] with
            | none => exact Or.inl rfl
            | some ce =>
              obtain ⟨content, enc⟩ := ce
              dsimp only
              by_cases h3 : ((content.take 1000).contains nulChar) = true
              · rw [if_pos h3]; exact Or.inl rfl
              · rw [if_neg h3]
                by_cases h4 : cache.length < 30
                · rw [if_pos h4]
                  exact Or.inr ⟨_, rfl, h4⟩
                · rw [if_neg h4]; exact Or.inl rfl

/-- C10: the bounded read-through cache of `file_read` is keyed by path and
never invalidated: (1) once a result is cached for a path, any later read
of that path — against any filesystem state in which the path still names
a regular file, in particular after its content changed on disk — returns
exactly the cached result string and leaves the cache untouched; (2) no
call ever removes or rewrites an existing entry; (3) admission happens
only while the cache holds fewer than 30 entries. -/
theorem c10_file_cache :
    (∀ fs cache p statSize reads r, fs p = FKind.file statSize reads →
      lookupA cache p = some r → fileRead fs cache p = (r, cache)) ∧
    (∀ fs cache p q r, lookupA cache q = some r →
      lookupA (fileRead fs cache p).2 q = some r) ∧
    (∀ fs cache p, 30 ≤ cache.length → (fileRead fs cache p).2 = cache) := by
  refine ⟨?_, ?_, ?_⟩
  · intro fs cache p statSize reads r hfs hc
    unfold fileRead
    rw [hfs, hc]
  · intro fs cache p q r h
    rcases fileRead_cache_cases fs cache p with h2 | ⟨v, h2, _⟩
    · rw [h2]; exact h
    · rw [h2]; exact lookupA_append_right h _
  · intro fs cache p h
    rcases fileRead_cache_cases fs cache p with h2 | ⟨v, h2, hlt⟩
    · exact h2
    · omega

/-- Witness for `c10_file_cache`: the result cached for `a.py` (content
`hello`) is returned verbatim after the file's content changed to
`world!`. -/
theorem c10_file_cache_witness :
    fileRead fsWChanged [(cs r"a.py", FRResult.success (cs r"a.py") 5 (cs r"hello") 0)]
      (cs r"a.py") =
    (FRResult.success (cs r"a.py") 5 (cs r"hello") 0,
     [(cs r"a.py", FRResult.success (cs r"a.py") 5 (cs r"hello") 0)]) :=
  c10_file_cache.1 fsWChanged _ (cs r"a.py") (Except.ok 6) (fun _ => EncRead.okRead (cs r"world!"))
    _ rfl rfl

/-- The git commands issued by the clone retry loop follow the attempt list
in order: the trace's command sequence is a prefix of the widening schedule. -/
theorem cloneAttempts_cmds_sched (env : CloneEnv) :
    ∀ l, gitCmdsOf (cloneAttempts env l).2 <+: l.map gitCmdFor
  | [] => by simp [cloneAttempts, gitCmdsOf]
  | i :: rest => by
    cases rest with
    | nil =>
      unfold cloneAttempts
      cases env.git i <;> simp [gitCmdsOf]
    | cons j rest2 =>
      have ih := cloneAttempts_cmds_sched env (j :: rest2)
      unfold cloneAttempts
      cases env.git i <;>
        simp only [gitCmdsOf, List.filterMap_cons, List.map_cons, List.cons_prefix_cons] <;>
        first
          | exact ⟨trivial, List.nil_prefix _⟩
          | exact ⟨trivial, by simpa [gitCmdsOf, List.map_cons] using ih⟩

/-- Every git invocation in a clone-loop trace carries the 300-second
timeout. -/
theorem cloneAttempts_t300 (env : CloneEnv) :
    ∀ l c t, Act.gitClone c t ∈ (cloneAttempts env l).2 → t = 300
  | [], c, t => by simp [cloneAttempts]
  | i :: rest, c, t => by
    intro h
    cases rest with
    | nil =>
      unfold cloneAttempts at h
      cases hg : env.git i <;> rw [hg] at h <;> simp_all
    | cons j rest2 =>
      have ih := cloneAttempts_t300 env (j :: rest2) c t
      unfold cloneAttempts at h
      cases hg : env.git i <;> rw [hg] at h <;> dsimp only at h <;>
        simp only [List.mem_cons, List.mem_singleton, Act.gitClone.injEq,
          List.not_mem_nil, or_false, reduceCtorEq, false_or] at h <;>
        first
          | exact h.2
          | (rcases h with h | h
             · exact h.2
             · exact ih h)

/-- C5: the clone retry loop attempts at most three times with the widening
command order shallow-single-branch, single-branch, full clone, each under
a 300-second timeout; not-found and permission-denied errors stop retrying
immediately; a directory-not-empty error triggers the extra cleanup and a
retry; a generic failure sleeps `(attempt+1)*3` seconds before the next
attempt; a timeout is fatal to its attempt only — the next, wider attempt
runs with no backoff — and a timeout on the last attempt fails the run. -/
theorem c5_clone_retry :
    (∀ env : CloneEnv, ∀ l, gitCmdsOf (cloneAttempts env l).2 <+: l.map gitCmdFor) ∧
    (∀ env : CloneEnv, gitCmdsOf (cloneAttempts env [0, 1, 2]).2 <+:
      [GitCmd.shallowSingle, GitCmd.singleBranch, GitCmd.fullClone]) ∧
    (∀ env : CloneEnv, ∀ l c t, Act.gitClone c t ∈ (cloneAttempts env l).2 → t = 300) ∧
    (∀ env : CloneEnv, ∀ i rest, env.git i = GitOutcome.ok →
      cloneAttempts env (i :: rest) = (true, [Act.gitClone (gitCmdFor i) 300])) ∧
    (∀ env : CloneEnv, ∀ i rest, env.git i = GitOutcome.errNotFound →
      cloneAttempts env (i :: rest) = (false, [Act.gitClone (gitCmdFor i) 300])) ∧
    (∀ env : CloneEnv, ∀ i rest, env.git i = GitOutcome.errPermission →
      cloneAttempts env (i :: rest) = (false, [Act.gitClone (gitCmdFor i) 300])) ∧
    (∀ env : CloneEnv, ∀ i j rest2, env.git i = GitOutcome.errOther →
      cloneAttempts env (i :: j :: rest2) =
        ((cloneAttempts env (j :: rest2)).1,
          Act.gitClone (gitCmdFor i) 300 :: Act.sleepSecs ((i + 1) * 3) ::
            (cloneAttempts env (j :: rest2)).2)) ∧
    (∀ env : CloneEnv, ∀ i j rest2, env.git i = GitOutcome.timedOut →
      cloneAttempts env (i :: j :: rest2) =
        ((cloneAttempts env (j :: rest2)).1,
          Act.gitClone (gitCmdFor i) 300 :: (cloneAttempts env (j :: rest2)).2)) ∧
    (∀ env : CloneEnv, ∀ i, env.git i = GitOutcome.timedOut →
      cloneAttempts env [i] = (false, [Act.gitClone (gitCmdFor i) 300])) ∧
    (∀ env : CloneEnv, ∀ i j rest2, env.git i = GitOutcome.errDirNotEmpty →
      cloneAttempts env (i :: j :: rest2) =
        ((cloneAttempts env (j :: rest2)).1,
          Act.gitClone (gitCmdFor i) 300 :: Act.retryCleanup :: Act.sleepSecs 2 ::
            (cloneAttempts env (j :: rest2)).2)) := by
  refine ⟨cloneAttempts_cmds_sched, fun env => cloneAttempts_cmds_sched env [0, 1, 2],
    cloneAttempts_t300, ?_, ?_, ?_, ?_, ?_, ?_, ?_⟩ <;>
    intro env i
  · intro rest h
    cases rest <;> (unfold cloneAttempts; rw [h])
  · intro rest h
    cases rest <;> (unfold cloneAttempts; rw [h])
  · intro rest h
    cases rest <;> (unfold cloneAttempts; rw [h])
  · intro j rest2 h
    conv_lhs => unfold cloneAttempts
    rw [h]
  · intro j rest2 h
    conv_lhs => unfold cloneAttempts
    rw [h]
  · intro h
    unfold cloneAttempts
    rw [h]
  · intro j rest2 h
    conv_lhs => unfold cloneAttempts
    rw [h]

/-- Witness for `c5_clone_retry` at the concrete environment `envRetry`
(generic failure, then timeout, then success). -/
theorem c5_clone_retry_witness :
    gitCmdsOf (cloneAttempts envRetry [0, 1, 2]).2 <+:
      [GitCmd.shallowSingle, GitCmd.singleBranch, GitCmd.fullClone] ∧
    cloneAttempts envRetry [0, 1, 2] =
      ((cloneAttempts envRetry [1, 2]).1,
        Act.gitClone (gitCmdFor 0) 300 :: Act.sleepSecs ((0 + 1) * 3) ::
          (cloneAttempts envRetry [1, 2]).2) ∧
    cloneAttempts envRetry [1, 2] =
      ((cloneAttempts envRetry [2]).1,
        Act.gitClone (gitCmdFor 1) 300 :: (cloneAttempts envRetry [2]).2) ∧
    cloneAttempts envRetry [2] = (true, [Act.gitClone (gitCmdFor 2) 300]) :=
  ⟨c5_clone_retry.2.1 envRetry,
   c5_clone_retry.2.2.2.2.2.2.1 envRetry 0 1 [2] rfl,
   c5_clone_retry.2.2.2.2.2.2.2.1 envRetry 1 2 [] rfl,
   c5_clone_retry.2.2.2.1 envRetry 2 [] rfl⟩

/-- The removal methods tried by the cleanup loop follow the attempt list in
order: the trace's method sequence is a prefix of the escalation schedule. -/
theorem cleanupAttempts_methods_sched (env : CloneEnv) :
    ∀ l, rmMethodsOf (cleanupAttempts env l).2 <+: l.map rmMethodFor
  | [] => by simp [cleanupAttempts, rmMethodsOf]
  | i :: rest => by
    cases rest with
    | nil =>
      unfold cleanupAttempts
      by_cases h : env.removeSucceeds i <;> simp [h, rmMethodsOf]
    | cons j rest2 =>
      have ih := cleanupAttempts_methods_sched env (j :: rest2)
      unfold cleanupAttempts
      by_cases h : env.removeSucceeds i <;>
        simp only [h, if_true, if_false, Bool.false_eq_true, rmMethodsOf, List.filterMap_cons,
          List.map_cons, List.cons_prefix_cons] <;>
        first
          | exact ⟨trivial, List.nil_prefix _⟩
          | exact ⟨trivial, by simpa [rmMethodsOf, List.map_cons] using ih⟩

/-- If the cleanup loop reports the directory gone, some attempt in its
list succeeded. -/
theorem cleanupAttempts_success (env : CloneEnv) :
    ∀ l, (cleanupAttempts env l).1 = true → ∃ i ∈ l, env.removeSucceeds i = true
  | [] => by simp [cleanupAttempts]
  | i :: rest => by
    intro h
    cases rest with
    | nil =>
      unfold cleanupAttempts at h
      by_cases hs : env.removeSucceeds i
      · exact ⟨i, List.mem_singleton_self i, hs⟩
      · simp [hs] at h
    | cons j rest2 =>
      unfold cleanupAttempts at h
      by_cases hs : env.removeSucceeds i
      · exact ⟨i, List.mem_cons_self i _, hs⟩
      · simp only [hs, Bool.false_eq_true, if_false] at h
        obtain ⟨k, hk, hks⟩ := cleanupAttempts_success env (j :: rest2) h
        exact ⟨k, List.mem_cons_of_mem i hk, hks⟩

/-- C6: the pre-clone cleanup of an existing target directory escalates
through recursive remove, permission-forcing remove, and shell-level
remove, in that order, over at most three attempts with a 1-second sleep
between attempts; when every attempt leaves the directory in place the
loop's trace is exactly the three escalating attempts with the two
backoffs, followed by the rename-aside (timestamp-suffix) fallback, and
the run proceeds exactly when the rename succeeds; whenever the cleanup
phase lets the run proceed, the target path is free (no pre-existing
directory, or one removal succeeded, or the stale directory was renamed
aside) — the single-owner state. -/
theorem c6_cleanup :
    (∀ env : CloneEnv, ∀ l, rmMethodsOf (cleanupAttempts env l).2 <+: l.map rmMethodFor) ∧
    (∀ env : CloneEnv, rmMethodsOf (cleanupAttempts env [0, 1, 2]).2 <+:
      [RmMethod.rmtree, RmMethod.chmodRmtree, RmMethod.shellRm]) ∧
    (∀ env : CloneEnv, ∀ i rest, env.removeSucceeds i = true →
      cleanupAttempts env (i :: rest) = (true, [Act.removeAttempt (rmMethodFor i)])) ∧
    (∀ env : CloneEnv, ∀ i j rest2, env.removeSucceeds i = false →
      cleanupAttempts env (i :: j :: rest2) =
        ((cleanupAttempts env (j :: rest2)).1,
          Act.removeAttempt (rmMethodFor i) :: Act.sleepSecs 1 ::
            (cleanupAttempts env (j :: rest2)).2)) ∧
    (∀ env : CloneEnv, env.targetExists = true → (∀ i, env.removeSucceeds i = false) →
      cleanupPhase env =
        (env.renameOk,
         [Act.removeAttempt RmMethod.rmtree, Act.sleepSecs 1,
          Act.removeAttempt RmMethod.chmodRmtree, Act.sleepSecs 1,
          Act.removeAttempt RmMethod.shellRm, Act.renameAside])) ∧
    (∀ env : CloneEnv, (cleanupPhase env).1 = true →
      env.targetExists = false ∨ (∃ i ∈ [0, 1, 2], env.removeSucceeds i = true) ∨
        env.renameOk = true) := by
  refine ⟨cleanupAttempts_methods_sched,
    fun env => cleanupAttempts_methods_sched env [0, 1, 2], ?_, ?_, ?_, ?_⟩
  · intro env i rest h
    cases rest <;> (unfold cleanupAttempts; rw [h]; simp)
  · intro env i j rest2 h
    conv_lhs => unfold cleanupAttempts
    rw [h]
    simp
  · intro env hex hall
    unfold cleanupPhase
    rw [hex]
    simp [cleanupAttempts, hall 0, hall 1, hall 2]
    exact ⟨rfl, rfl, rfl⟩
  · intro env h
    unfold cleanupPhase at h
    by_cases hex : env.targetExists
    · rw [if_pos hex] at h
      by_cases hra : (cleanupAttempts env [0, 1, 2]).1 = true
      · exact Or.inr (Or.inl (cleanupAttempts_success env [0, 1, 2] hra))
      · simp only [hra, if_false, Bool.not_eq_true] at h
        rw [if_neg (by simpa using hra)] at h
        exact Or.inr (Or.inr h)
    · exact Or.inl (by simpa using hex)

/-- Witness for `c6_cleanup` at the concrete environment `envStaleDir`
(stale directory, every removal fails, rename succeeds). -/
theorem c6_cleanup_witness :
    cleanupPhase envStaleDir =
      (true,
       [Act.removeAttempt RmMethod.rmtree, Act.sleepSecs 1,
        Act.removeAttempt RmMethod.chmodRmtree, Act.sleepSecs 1,
        Act.removeAttempt RmMethod.shellRm, Act.renameAside]) ∧
    (envStaleDir.targetExists = false ∨
      (∃ i ∈ [0, 1, 2], envStaleDir.removeSucceeds i = true) ∨
      envStaleDir.renameOk = true) :=
  ⟨c6_cleanup.2.2.2.2.1 envStaleDir rfl (fun _ => rfl),
   c6_cleanup.2.2.2.2.2 envStaleDir
     (by rw [c6_cleanup.2.2.2.2.1 envStaleDir rfl (fun _ => rfl)]; rfl)⟩

/-- Rewriting step for `stripGitAll` at a head that does not start `.git`. -/
theorem stripGitAll_cons_ne (c : Char) (r : List Char)
    (hne : ∀ r2, c = '.' → r = 'g' :: 'i' :: 't' :: r2 → False) :
    stripGitAll (c :: r) = c :: stripGitAll r := by
  rw [stripGitAll.eq_def]
  split
  · next r2 heq =>
    rw [List.cons.injEq] at heq
    obtain ⟨hc, hr⟩ := heq
    exact (hne r2 hc hr).elim
  · next c2 r2 hne2 heq =>
    rw [List.cons.injEq] at heq
    obtain ⟨hc, hr⟩ := heq
    rw [hc, hr]
  · next heq => exact absurd heq (by simp)

/-- Rewriting step for `hasDotGit` at a head that does not start `.git`. -/
theorem hasDotGit_cons_ne (c : Char) (r : List Char)
    (hne : ∀ r2, c = '.' → r = 'g' :: 'i' :: 't' :: r2 → False) :
    hasDotGit (c :: r) = hasDotGit r := by
  rw [hasDotGit.eq_def]
  split
  · next r2 heq =>
    rw [List.cons.injEq] at heq
    obtain ⟨hc, hr⟩ := heq
    exact (hne r2 hc hr).elim
  · next c2 r2 hne2 heq =>
    rw [List.cons.injEq] at heq
    obtain ⟨hc, hr⟩ := heq
    rw [hr]
  · next heq => exact absurd heq (by simp)

/-- A string without any `.git` occurrence passes through the replace
unchanged. -/
theorem stripGitAll_of_no : ∀ s, hasDotGit s = false → stripGitAll s = s := by
  intro s
  induction s using stripGitAll.induct with
  | case1 r ih =>
    intro h
    simp [hasDotGit] at h
  | case2 c r hne ih =>
    intro h
    rw [hasDotGit_cons_ne c r hne] at h
    rw [stripGitAll_cons_ne c r hne, ih h]
  | case3 =>
    intro h
    rfl

/-- When `.git` occurs nowhere in `s`, the replace on `s ++ ".git"` strips
exactly the trailing suffix. -/
theorem stripGitAll_append_git : ∀ s, hasDotGit s = false →
    stripGitAll (s ++ cs r".git") = s := by
  intro s
  induction s using stripGitAll.induct with
  | case1 r ih =>
    intro h
    simp [hasDotGit] at h
  | case2 c r hne ih =>
    intro h
    rw [hasDotGit_cons_ne c r hne] at h
    rw [List.cons_append]
    rw [stripGitAll_cons_ne c (r ++ cs r".git") ?_, ih h]
    intro r2 hc hr
    rcases r with _ | ⟨a, _ | ⟨b, _ | ⟨d, rr⟩⟩⟩
    · simp [cs] at hr
    · simp [cs] at hr
    · simp [cs] at hr
    · simp only [List.cons_append, List.cons.injEq] at hr
      obtain ⟨ha, hb, hd, -⟩ := hr
      exact hne rr hc (by rw [ha, hb, hd])
  | case3 =>
    intro h
    rfl

/-- C8, counterexample to the claim as stated: the URL
`https://github.com/o/a.gitb` passes validation and its trailing path
segment `a.gitb` carries no trailing `.git` suffix, yet the derived local
directory name is `ab`: `str.replace(".git", "")` (line 1258) removes
every occurrence of `.git`, not only a trailing suffix, so the rest of the
segment is not preserved. -/
theorem c8_counterexample :
    validateGithubUrl (cs r"https://github.com/o/a.gitb") = true ∧
    lastOf (pySplit '/' (cs r"https://github.com/o/a.gitb")) = cs r"a.gitb" ∧
    repoName (cs r"https://github.com/o/a.gitb") = cs r"ab" ∧
    cs r"ab" ≠ cs r"a.gitb" := by decide

/-- C8, amended: the local directory name is the reference's trailing path
segment with every occurrence of the substring `.git` removed; in
particular, for segments in which `.git` occurs only as the trailing
suffix (or not at all), this coincides with the claim: the suffix is
stripped and the rest of the segment is preserved unchanged. -/
theorem c8_repo_name :
    (∀ url, repoName url = stripGitAll (lastOf (pySplit '/' url))) ∧
    (∀ seg, hasDotGit seg = false → stripGitAll (seg ++ cs r".git") = seg) ∧
    (∀ seg, hasDotGit seg = false → stripGitAll seg = seg) :=
  ⟨fun _ => rfl, stripGitAll_append_git, stripGitAll_of_no⟩

/-- Witness for `c8_repo_name`: the segment `repo` has no inner `.git`, so
`repo.git` strips to `repo` and `repo` itself is unchanged. -/
theorem c8_repo_name_witness :
    repoName (cs r"https://github.com/o/repo.git") =
      stripGitAll (lastOf (pySplit '/' (cs r"https://github.com/o/repo.git"))) ∧
    stripGitAll (cs r"repo" ++ cs r".git") = cs r"repo" ∧
    stripGitAll (cs r"repo") = cs r"repo" :=
  ⟨c8_repo_name.1 (cs r"https://github.com/o/repo.git"),
   c8_repo_name.2.1 (cs r"repo") (by decide),
   c8_repo_name.2.2 (cs r"repo") (by decide)⟩

/-- Python `split` never produces an empty field list. -/
theorem pySplit_ne_nil (sep : Char) : ∀ l, pySplit sep l ≠ []
  | [] => by simp [pySplit]
  | c :: r => by
    unfold pySplit
    by_cases h : c = sep
    · simp [h]
    · simp only [h, if_false]
      cases hps : pySplit sep r with
      | nil => simp
      | cons x t => simp

/-- A trailing separator contributes one trailing empty field. -/
theorem pySplit_append_sep (sep : Char) :
    ∀ l, pySplit sep (l ++ [sep]) = pySplit sep l ++ [[]]
  | [] => by simp [pySplit]
  | c :: r => by
    rw [List.cons_append]
    conv_lhs => unfold pySplit
    conv_rhs => unfold pySplit
    by_cases h : c = sep
    · rw [if_pos h, if_pos h, pySplit_append_sep sep r]
      rfl
    · rw [if_neg h, if_neg h]
      have hne := pySplit_ne_nil sep r
      cases hps : pySplit sep r with
      | nil => exact absurd hps hne
      | cons x t =>
        rw [pySplit_append_sep sep r, hps]
        rfl

/-- The last field of a field list ending in `a` is `a`. -/
theorem lastOf_concat (a : List Char) : ∀ xs, lastOf (xs ++ [a]) = a
  | [] => rfl
  | x :: xs => by
    rw [List.cons_append]
    cases hxs : xs ++ [a] with
    | nil => exact absurd hxs (by simp)
    | cons y t =>
      rw [show lastOf (x :: y :: t) = lastOf (y :: t) from rfl, ← hxs,
        lastOf_concat a xs]

/-- C9: for every reference the validator accepts that ends in a trailing
slash, `project_url.split("/")[-1]` is the empty string, `.replace` keeps
it empty, and `workdir / ""` is `workdir` itself: the clone target
collapses to the base working directory rather than a per-repository
subdirectory. -/
theorem c9_trailing_slash :
    ∀ url t, validateGithubUrl url = true → url = t ++ ['/'] →
      repoName url = [] ∧ clonePath url = workdirName := by
  intro url t hv he
  subst he
  have h1 : lastOf (pySplit '/' (t ++ ['/'])) = [] := by
    rw [pySplit_append_sep, lastOf_concat]
  constructor
  · unfold repoName
    rw [h1]
    rfl
  · unfold clonePath repoName
    rw [h1]
    rfl

/-- Witness for `c9_trailing_slash` at `https://github.com/a/b/`. -/
theorem c9_trailing_slash_witness :
    repoName (cs r"https://github.com/a/b/") = [] ∧
    clonePath (cs r"https://github.com/a/b/") = workdirName :=
  c9_trailing_slash (cs r"https://github.com/a/b/") (cs r"https://github.com/a/b")
    (by decide) (by decide)

theorem addStats_right_comm (a b c : AStats) :
    addStats (addStats a b) c = addStats (addStats a c) b := by
  simp only [addStats, AStats.mk.injEq]
  omega

/-- Folding the walk body commutes with a constant shift of the counters. -/
theorem foldl_analyzeFileStep_shift :
    ∀ (d : List AFile) (s v : AStats),
      d.foldl analyzeFileStep (addStats s v) = addStats (d.foldl analyzeFileStep s) v
  | [], s, v => rfl
  | f :: rest, s, v => by
    simp only [List.foldl_cons]
    rw [show analyzeFileStep (addStats s v) f = addStats (addStats s (analyzeContrib f)) v from
      addStats_right_comm s v (analyzeContrib f)]
    exact foldl_analyzeFileStep_shift rest (addStats s (analyzeContrib f)) v

/-- The directory walk commutes with a constant shift that does not touch
the `important_files` counter (which drives the early break). -/
theorem analyzeDirs_shift :
    ∀ (walk : List (List AFile)) (s v : AStats), v.importantCount = 0 →
      analyzeDirs walk (addStats s v) = addStats (analyzeDirs walk s) v
  | [], s, v, hv => rfl
  | d :: rest, s, v, hv => by
    conv_lhs => unfold analyzeDirs
    conv_rhs => unfold analyzeDirs
    rw [foldl_analyzeFileStep_shift d s v]
    have himp : (addStats (d.foldl analyzeFileStep s) v).importantCount =
        (d.foldl analyzeFileStep s).importantCount := by
      simp [addStats, hv]
    simp only [himp]
    by_cases hb : (d.foldl analyzeFileStep s).importantCount > 50
    · rw [if_pos hb, if_pos hb]
    · rw [if_neg hb, if_neg hb]
      exact analyzeDirs_shift rest (d.foldl analyzeFileStep s) v hv

/-- Every per-file contribution leaves the error counter unchanged and adds
exactly one to `visited`, split between a record and a skip. -/
theorem analyzeContrib_inv (f : AFile) :
    (analyzeContrib f).errorDelta = 0 ∧
    (analyzeContrib f).records + (analyzeContrib f).skipped = (analyzeContrib f).visited := by
  unfold analyzeContrib
  repeat' split
  all_goals simp

/-- A file whose stat or read/analysis raises one of the caught error
classes contributes the pure skip vector: one visit, one skip, no record,
no important-file entry, no error-counter change. -/
theorem analyzeContrib_failure (f : AFile)
    (h : f.statSize = Except.error () ∨ f.analysis = Except.error ()) :
    analyzeContrib f = ⟨1, 0, 1, 0, 0⟩ := by
  unfold analyzeContrib
  by_cases h1 : (startsWithDot f.name) = true
  · rw [if_pos h1]
  · rw [if_neg h1]
    by_cases h2 : (!codeExts.contains (extOf f.name)) = true
    · rw [if_pos h2]
    · rw [if_neg h2]
      rcases h with h | h
      · rw [h]
      · cases hst : f.statSize with
        | error e => rfl
        | ok size =>
          dsimp only
          by_cases h3 : size > 500 * 1024
          · rw [if_pos h3]
          · rw [if_neg h3, h]

theorem foldl_analyzeFileStep_err (d : List AFile) (s : AStats) :
    (d.foldl analyzeFileStep s).errorDelta = s.errorDelta := by
  induction d generalizing s with
  | nil => rfl
  | cons f rest ih =>
    simp only [List.foldl_cons]
    rw [ih]
    simp [analyzeFileStep, addStats, (analyzeContrib_inv f).1]

theorem analyzeDirs_err : ∀ (walk : List (List AFile)) (s : AStats),
    (analyzeDirs walk s).errorDelta = s.errorDelta
  | [], s => rfl
  | d :: rest, s => by
    conv_lhs => unfold analyzeDirs
    by_cases hb : (d.foldl analyzeFileStep s).importantCount > 50
    · rw [if_pos hb, foldl_analyzeFileStep_err]
    · rw [if_neg hb, analyzeDirs_err rest _, foldl_analyzeFileStep_err]

theorem foldl_analyzeFileStep_bal (d : List AFile) (s : AStats)
    (hs : s.records + s.skipped = s.visited) :
    (d.foldl analyzeFileStep s).records + (d.foldl analyzeFileStep s).skipped =
      (d.foldl analyzeFileStep s).visited := by
  induction d generalizing s with
  | nil => exact hs
  | cons f rest ih =>
    simp only [List.foldl_cons]
    refine ih _ ?_
    have hc := (analyzeContrib_inv f).2
    simp only [analyzeFileStep, addStats]
    omega

theorem analyzeDirs_bal : ∀ (walk : List (List AFile)) (s : AStats),
    s.records + s.skipped = s.visited →
    (analyzeDirs walk s).records + (analyzeDirs walk s).skipped =
      (analyzeDirs walk s).visited
  | [], s, hs => hs
  | d :: rest, s, hs => by
    conv_lhs => unfold analyzeDirs
    conv_rhs => unfold analyzeDirs
    by_cases hb : (d.foldl analyzeFileStep s).importantCount > 50
    · rw [if_pos hb]
      exact foldl_analyzeFileStep_bal d s hs
    · rw [if_neg hb]
      exact analyzeDirs_bal rest _ (foldl_analyzeFileStep_bal d s hs)

/-- C3, counterexample to the claim as stated: a single walk visiting one
code file `a.py` whose read raises a caught error class produces zero file
records while one non-pruned file was visited, and the error counter is
untouched — the record total does not equal the number of files visited,
the failure is not counted, and no record carries a skip annotation. -/
theorem c3_counterexample :
    (analyzeCodeStructure [[⟨cs r"a.py", Except.ok 10, Except.error ()⟩]]).visited = 1 ∧
    (analyzeCodeStructure [[⟨cs r"a.py", Except.ok 10, Except.error ()⟩]]).records = 0 ∧
    (analyzeCodeStructure [[⟨cs r"a.py", Except.ok 10, Except.error ()⟩]]).errorDelta = 0 ∧
    (analyzeCodeStructure [[⟨cs r"a.py", Except.ok 10, Except.error ()⟩]]).records ≠
      (analyzeCodeStructure [[⟨cs r"a.py", Except.ok 10, Except.error ()⟩]]).visited := by
  decide

/-- C3, amended: per-file failures never escape `analyze_code_structure` —
a file whose stat or read raises a caught error class is skipped silently
and the walk continues exactly as if the file were absent, with one more
file visited and skipped; but such files produce no record and do not
touch the error counter, so the record total equals the number of
successfully analyzed code files (`visited - skipped`), which is less than
the number of non-pruned files visited whenever any file fails. -/
theorem c3_classifier :
    (∀ walk, (analyzeCodeStructure walk).errorDelta = 0) ∧
    (∀ walk, (analyzeCodeStructure walk).records + (analyzeCodeStructure walk).skipped
      = (analyzeCodeStructure walk).visited) ∧
    (∀ d1 d2 rest f, f.statSize = Except.error () ∨ f.analysis = Except.error () →
      analyzeDirs ((d1 ++ f :: d2) :: rest) ⟨0, 0, 0, 0, 0⟩ =
        addStats (analyzeDirs ((d1 ++ d2) :: rest) ⟨0, 0, 0, 0, 0⟩) ⟨1, 0, 1, 0, 0⟩) := by
  refine ⟨fun walk => analyzeDirs_err walk _, fun walk => analyzeDirs_bal walk _ rfl, ?_⟩
  intro d1 d2 rest f hf
  conv_lhs => unfold analyzeDirs
  conv_rhs => unfold analyzeDirs
  have hsplit : ∀ s : AStats, (d1 ++ f :: d2).foldl analyzeFileStep s =
      addStats ((d1 ++ d2).foldl analyzeFileStep s) ⟨1, 0, 1, 0, 0⟩ := by
    intro s
    rw [List.foldl_append, List.foldl_append, List.foldl_cons]
    rw [show analyzeFileStep (d1.foldl analyzeFileStep s) f =
      addStats (d1.foldl analyzeFileStep s) ⟨1, 0, 1, 0, 0⟩ by
        simp [analyzeFileStep, analyzeContrib_failure f hf]]
    exact foldl_analyzeFileStep_shift d2 (d1.foldl analyzeFileStep s) _
  rw [hsplit]
  have himp : (addStats ((d1 ++ d2).foldl analyzeFileStep ⟨0, 0, 0, 0, 0⟩)
      ⟨1, 0, 1, 0, 0⟩).importantCount =
      ((d1 ++ d2).foldl analyzeFileStep ⟨0, 0, 0, 0, 0⟩).importantCount := by
    simp [addStats]
  simp only [himp]
  by_cases hb : ((d1 ++ d2).foldl analyzeFileStep ⟨0, 0, 0, 0, 0⟩).importantCount > 50
  · rw [if_pos hb, if_pos hb]
  · rw [if_neg hb, if_neg hb]
    exact analyzeDirs_shift rest _ _ rfl

/-- Witness for `c3_classifier` at the concrete failing file. -/
theorem c3_classifier_witness :
    analyzeDirs [[⟨cs r"a.py", Except.ok 10, Except.error ()⟩]] ⟨0, 0, 0, 0, 0⟩ =
      addStats (analyzeDirs [[]] ⟨0, 0, 0, 0, 0⟩) ⟨1, 0, 1, 0, 0⟩ :=
  c3_classifier.2.2 [] [] [] ⟨cs r"a.py", Except.ok 10, Except.error ()⟩ (Or.inr rfl)

theorem insertLe_perm (le : α → α → Bool) (x : α) :
    ∀ l, List.Perm (insertLe le x l) (x :: l)
  | [] => List.Perm.refl _
  | y :: r => by
    unfold insertLe
    by_cases h : le x y = true
    · rw [if_pos h]
    · rw [if_neg h]
      exact ((insertLe_perm le x r).cons y).trans (List.Perm.swap x y r)

theorem sortLe_perm (le : α → α → Bool) : ∀ l, List.Perm (sortLe le l) l
  | [] => List.Perm.refl _
  | x :: r => (insertLe_perm le x (sortLe le r)).trans ((sortLe_perm le r).cons x)

theorem pairwise_insertLe (le : α → α → Bool)
    (total : ∀ a b, (le a b || le b a) = true)
    (htrans : ∀ a b c, le a b = true → le b c = true → le a c = true)
    (x : α) : ∀ l, l.Pairwise (fun a b => le a b = true) →
      (insertLe le x l).Pairwise (fun a b => le a b = true)
  | [], _ => by simp [insertLe]
  | y :: r, hl => by
    rcases List.pairwise_cons.mp hl with ⟨hy, hr⟩
    unfold insertLe
    by_cases h : le x y = true
    · rw [if_pos h]
      refine List.pairwise_cons.mpr ⟨?_, hl⟩
      intro b hb
      rcases List.mem_cons.mp hb with rfl | hb
      · exact h
      · exact htrans x y b h (hy b hb)
    · rw [if_neg h]
      refine List.pairwise_cons.mpr ⟨?_, pairwise_insertLe le total htrans x r hr⟩
      intro b hb
      have hb2 : b ∈ x :: r := (insertLe_perm le x r).mem_iff.mp hb
      rcases List.mem_cons.mp hb2 with hbx | hb2
      · rw [hbx]
        rcases Bool.or_eq_true_iff.mp (total x y) with h1 | h1
        · exact absurd h1 h
        · exact h1
      · exact hy b hb2

theorem pairwise_sortLe (le : α → α → Bool)
    (total : ∀ a b, (le a b || le b a) = true)
    (htrans : ∀ a b c, le a b = true → le b c = true → le a c = true) :
    ∀ l, (sortLe le l).Pairwise (fun a b => le a b = true)
  | [] => List.Pairwise.nil
  | x :: r => pairwise_insertLe le total htrans x (sortLe le r) (pairwise_sortLe le total htrans r)

theorem detailedLe_total : ∀ a b : DFile × Nat, (detailedLe a b || detailedLe b a) = true := by
  intro a b
  simp only [detailedLe, Bool.or_eq_true, Bool.and_eq_true, decide_eq_true_eq, beq_iff_eq]
  omega

theorem detailedLe_trans : ∀ a b c : DFile × Nat,
    detailedLe a b = true → detailedLe b c = true → detailedLe a c = true := by
  intro a b c
  simp only [detailedLe, Bool.or_eq_true, Bool.and_eq_true, decide_eq_true_eq, beq_iff_eq]
  omega

/-- C7: ranked-file selection returns at most the configured `max_files`
entries, sorted descending by (priority, size) under the stable sort
comparison; every returned entry carries priority 10 — exactly when its
lowercased name has a high-value pattern as substring — or priority 5 —
exactly when it has a ranked code extension and is over 1000 bytes.
Determinism holds by construction: the selection is a pure function of the
walk-ordered file list. -/
theorem c7_ranked :
    (∀ n files, (detailedFileAnalysis n files).length ≤ n) ∧
    (∀ n files, (detailedFileAnalysis n files).Pairwise (fun a b => detailedLe a b = true)) ∧
    (∀ n files, ∀ e ∈ detailedFileAnalysis n files,
      (e.2 = 10 ∧ detailedPatterns.any (fun pat => isSubstr pat (lowerL e.1.name)) = true) ∨
      (e.2 = 5 ∧ detailedCodeExts.contains (extOf e.1.name) = true ∧ e.1.size > 1000)) := by
  refine ⟨?_, ?_, ?_⟩
  · intro n files
    exact List.length_take_le n _
  · intro n files
    exact (pairwise_sortLe detailedLe detailedLe_total detailedLe_trans _).sublist
      (List.take_sublist _ _)
  · intro n files e he
    have h1 : e ∈ sortLe detailedLe ((files.filterMap classifyDetailed).take (n * 2)) :=
      (List.take_sublist _ _).subset he
    have h2 : e ∈ (files.filterMap classifyDetailed).take (n * 2) :=
      (sortLe_perm _ _).mem_iff.mp h1
    have h3 : e ∈ files.filterMap classifyDetailed := (List.take_sublist _ _).subset h2
    obtain ⟨f, hf, hcf⟩ := List.mem_filterMap.mp h3
    unfold classifyDetailed at hcf
    by_cases hd : (startsWithDot f.name) = true
    · rw [if_pos hd] at hcf
      exact absurd hcf (by simp)
    · rw [if_neg hd] at hcf
      by_cases hp : (detailedPatterns.any fun pat => isSubstr pat (lowerL f.name)) = true
      · rw [if_pos hp] at hcf
        obtain rfl : (f, 10) = e := Option.some.inj hcf
        exact Or.inl ⟨rfl, hp⟩
      · rw [if_neg hp] at hcf
        by_cases hc : (detailedCodeExts.contains (extOf f.name) && decide (f.size > 1000)) = true
        · rw [if_pos hc] at hcf
          obtain rfl : (f, 5) = e := Option.some.inj hcf
          rcases Bool.and_eq_true_iff.mp hc with ⟨hc1, hc2⟩
          exact Or.inr ⟨rfl, hc1, by simpa using hc2⟩
        · rw [if_neg hc] at hcf
          exact absurd hcf (by simp)

/-- Witness for `c7_ranked`: `main.py` appears in the top-2 selection over a
two-file tree and satisfies the priority-10 characterization. -/
theorem c7_ranked_witness :
    (((⟨cs r"main.py", cs r"main.py", 10⟩, 10) : DFile × Nat).2 = 10 ∧
      detailedPatterns.any
        (fun pat => isSubstr pat
          (lowerL ((⟨cs r"main.py", cs r"main.py", 10⟩ : DFile)).name)) = true) ∨
    (((⟨cs r"main.py", cs r"main.py", 10⟩, 10) : DFile × Nat).2 = 5 ∧
      detailedCodeExts.contains
        (extOf ((⟨cs r"main.py", cs r"main.py", 10⟩ : DFile)).name) = true ∧
      ((⟨cs r"main.py", cs r"main.py", 10⟩ : DFile)).size > 1000) :=
  c7_ranked.2.2 2 [⟨cs r"zz.py", cs r"zz.py", 5000⟩, ⟨cs r"main.py", cs r"main.py", 10⟩]
    (⟨cs r"main.py", cs r"main.py", 10⟩, 10) (by decide)

theorem patFold_length_le (f : KFile) :
    ∀ (pats : List (List Char)) (acc : List (List Char)), acc.length ≤ 12 →
      (pats.foldl
        (fun a pat => if patMatch pat f && a.length < 12 then a ++ [f.path] else a)
        acc).length ≤ 12
  | [], acc, h => h
  | p :: ps, acc, h => by
    simp only [List.foldl_cons]
    by_cases hc : (patMatch p f && decide (acc.length < 12)) = true
    · rw [if_pos hc]
      refine patFold_length_le f ps _ ?_
      rcases Bool.and_eq_true_iff.mp hc with ⟨-, h2⟩
      simp only [decide_eq_true_eq] at h2
      simp only [List.length_append, List.length_singleton]
      omega
    · rw [if_neg hc]
      exact patFold_length_le f ps acc h

/-- No category ever holds more than 12 entries. -/
theorem findKeyFilesCat_length_le (walk : List (List KFile)) (cat : KeyCat) :
    (findKeyFilesCat walk cat).length ≤ 12 := by
  unfold findKeyFilesCat
  generalize (walk.take 2000).flatten = files
  suffices h : ∀ (files : List KFile) (acc : List (List Char)), acc.length ≤ 12 →
      (files.foldl (catStep cat) acc).length ≤ 12 by
    exact h files [] (by simp)
  intro files
  induction files with
  | nil => intro acc h; exact h
  | cons f rest ih =>
    intro acc h
    simp only [List.foldl_cons]
    refine ih _ ?_
    unfold catStep
    by_cases hd : (startsWithDot f.fname) = true
    · rw [if_pos hd]; exact h
    · rw [if_neg hd]
      exact patFold_length_le f _ acc h

theorem patFold_uncapped (f : KFile) :
    ∀ (pats : List (List Char)) (acc : List (List Char)),
      acc.length + pats.countP (fun pat => patMatch pat f) ≤ 12 →
      pats.foldl
        (fun a pat => if patMatch pat f && a.length < 12 then a ++ [f.path] else a) acc
        = acc ++ List.replicate (pats.countP (fun pat => patMatch pat f)) f.path
  | [], acc, h => by simp
  | p :: ps, acc, h => by
    simp only [List.foldl_cons]
    by_cases hm : patMatch p f = true
    · have hcount : (p :: ps).countP (fun pat => patMatch pat f) =
          ps.countP (fun pat => patMatch pat f) + 1 :=
        List.countP_cons_of_pos _ _ hm
      have hlen : acc.length < 12 := by
        rw [hcount] at h
        omega
      rw [if_pos (by simp [hm, hlen])]
      rw [patFold_uncapped f ps (acc ++ [f.path])
        (by rw [hcount] at h; simp only [List.length_append, List.length_singleton]; omega)]
      rw [hcount, List.append_assoc, List.singleton_append, ← List.replicate_succ]
    · have hcount : (p :: ps).countP (fun pat => patMatch pat f) =
          ps.countP (fun pat => patMatch pat f) :=
        List.countP_cons_of_neg _ _ (by simp [hm])
      rw [if_neg (by simp [hm]), hcount]
      exact patFold_uncapped f ps acc (by rw [hcount] at h; exact h)

theorem catStep_uncapped (cat : KeyCat) (acc : List (List Char)) (f : KFile)
    (h : acc.length + catMatchCount cat f ≤ 12) :
    catStep cat acc f = acc ++ List.replicate (catMatchCount cat f) f.path := by
  have hc : catMatchCount cat f =
      if startsWithDot f.fname then 0
      else (keyPatterns cat).countP (fun pat => patMatch pat f) := rfl
  by_cases hd : (startsWithDot f.fname) = true
  · unfold catStep
    rw [if_pos hd, hc, if_pos hd]
    simp
  · unfold catStep
    rw [hc, if_neg hd] at h
    rw [if_neg hd, hc, if_neg hd]
    exact patFold_uncapped f _ acc h

/-- When the total insertion stream of a category fits under the 12-entry
cap, the capped fold produces exactly the uncapped stream. -/
theorem foldCat_uncapped (cat : KeyCat) :
    ∀ (files : List KFile) (acc : List (List Char)),
      acc.length + (uncappedCat cat files).length ≤ 12 →
      files.foldl (catStep cat) acc = acc ++ uncappedCat cat files
  | [], acc, h => by simp [uncappedCat]
  | f :: rest, acc, h => by
    have hu : uncappedCat cat (f :: rest) =
        List.replicate (catMatchCount cat f) f.path ++ uncappedCat cat rest := by
      simp [uncappedCat]
    rw [hu] at h
    simp only [List.length_append, List.length_replicate] at h
    rw [List.foldl_cons, catStep_uncapped cat acc f (by omega)]
    rw [foldCat_uncapped cat rest _
      (by simp only [List.length_append, List.length_replicate]; omega)]
    rw [hu, List.append_assoc]

set_option maxRecDepth 40000 in
/-- C2, counterexample to the claim as stated: thirteen files named
`main.py1` … `main.py13`, each matching the entry-points category exactly
once; the two traversal orders hold the same file set, yet forward
traversal retains files 1-12 while reverse traversal retains 13-2 — the
12-entry cap makes category membership depend on traversal order. -/
theorem c2_counterexample :
    List.Perm ([c2files.reverse].flatten) ([c2files].flatten) ∧
    (cs r"main.py13") ∈ findKeyFilesCat [c2files.reverse] KeyCat.entry ∧
    (cs r"main.py13") ∉ findKeyFilesCat [c2files] KeyCat.entry := by
  refine ⟨?_, by decide, by decide⟩
  simp [List.reverse_perm]

/-- C2, amended: each category holds at most 12 entries; matching tests the
pattern catalog via directory-name substring (patterns ending in `/`),
case-sensitive substring of the lowercased filename, case-insensitive
exact match, or case-insensitive prefix match, and a file is appended once
per matching pattern; the categorization is a pure function of the walk
order, and it is traversal-order-independent (same members, as a multiset)
whenever every category's total number of pattern-match insertions over
the file set is at most 12 — beyond the cap, retained members depend on
traversal order. -/
theorem c2_key_files :
    (∀ walk cat, (findKeyFilesCat walk cat).length ≤ 12) ∧
    (∀ (walk1 walk2 : List (List KFile)) (cat : KeyCat),
      walk1.length ≤ 2000 → walk2.length ≤ 2000 →
      List.Perm walk1.flatten walk2.flatten →
      (∀ c : KeyCat, (uncappedCat c walk1.flatten).length ≤ 12) →
      List.Perm (findKeyFilesCat walk1 cat) (findKeyFilesCat walk2 cat)) := by
  refine ⟨findKeyFilesCat_length_le, ?_⟩
  intro walk1 walk2 cat h1 h2 hperm hcap
  have ht1 : walk1.take 2000 = walk1 := List.take_of_length_le h1
  have ht2 : walk2.take 2000 = walk2 := List.take_of_length_le h2
  have hu : List.Perm (uncappedCat cat walk1.flatten) (uncappedCat cat walk2.flatten) :=
    List.Perm.flatMap_right _ hperm
  have hc2 : (uncappedCat cat walk2.flatten).length ≤ 12 := by
    rw [← hu.length_eq]
    exact hcap cat
  unfold findKeyFilesCat
  rw [ht1, ht2]
  rw [foldCat_uncapped cat walk1.flatten [] (by simpa using hcap cat)]
  rw [foldCat_uncapped cat walk2.flatten [] (by simpa using hc2)]
  simpa using hu

/-- Witness for `c2_key_files`: two one-file walks listing `README.md` in
different directory groupings produce the same documentation category. -/
theorem c2_key_files_witness :
    List.Perm
      (findKeyFilesCat [[⟨cs r"README.md", cs r".", cs r"README.md"⟩]] KeyCat.docsCat)
      (findKeyFilesCat [[], [⟨cs r"README.md", cs r".", cs r"README.md"⟩]] KeyCat.docsCat) :=
  c2_key_files.2 [[⟨cs r"README.md", cs r".", cs r"README.md"⟩]]
    [[], [⟨cs r"README.md", cs r".", cs r"README.md"⟩]] KeyCat.docsCat
    (by decide) (by decide) (by decide) (by intro c; cases c <;> decide)

/-- The regex tail matcher accepts exactly the decompositions
`owner ++ "/" ++ name ++ ("" or "/")` with nonempty owner/name over the
character class. -/
theorem matchOwnerRepo_iff (l : List Char) :
    matchOwnerRepo l = true ↔
      ∃ a b tail, l = a ++ '/' :: (b ++ tail) ∧ a ≠ [] ∧ a.all isUrlChar ∧
        b ≠ [] ∧ b.all isUrlChar ∧ (tail = [] ∨ tail = ['/']) := by
  constructor
  · intro h
    unfold matchOwnerRepo at h
    obtain ⟨⟨⟨ha, hh⟩, hb⟩, ht⟩ := by
      simpa only [Bool.and_eq_true] using h
    rcases hdw : l.dropWhile isUrlChar with _ | ⟨c, r2⟩
    · rw [hdw] at hh
      simp at hh
    · rw [hdw] at hh hb ht
      have hc : c = '/' := by simpa using hh
      subst hc
      have hsplit : l = l.takeWhile isUrlChar ++
          '/' :: (r2.takeWhile isUrlChar ++ r2.dropWhile isUrlChar) := by
        conv_lhs => rw [← List.takeWhile_append_dropWhile isUrlChar l]
        rw [hdw, List.takeWhile_append_dropWhile]
      refine ⟨l.takeWhile isUrlChar, r2.takeWhile isUrlChar, r2.dropWhile isUrlChar,
        hsplit, by simpa using ha, List.all_takeWhile, by simpa using hb, List.all_takeWhile, ?_⟩
      rcases Bool.or_eq_true_iff.mp ht with h1 | h1
      · exact Or.inl (by simpa using h1)
      · exact Or.inr (by simpa using h1)
  · rintro ⟨a, b, tail, rfl, ha, hall, hb, hball, htail⟩
    have hamem : ∀ x ∈ a, isUrlChar x = true := fun x hx => by
      have := List.all_eq_true.mp hall x hx
      simpa using this
    have hbmem : ∀ x ∈ b, isUrlChar x = true := fun x hx => by
      have := List.all_eq_true.mp hball x hx
      simpa using this
    have htake : (a ++ '/' :: (b ++ tail)).takeWhile isUrlChar = a := by
      rw [List.takeWhile_append_of_pos hamem,
        List.takeWhile_cons_of_neg (by simp [isUrlChar]), List.append_nil]
    have hdrop : (a ++ '/' :: (b ++ tail)).dropWhile isUrlChar = '/' :: (b ++ tail) := by
      rw [List.dropWhile_append_of_pos hamem,
        List.dropWhile_cons_of_neg (by simp [isUrlChar])]
    have htake2 : (b ++ tail).takeWhile isUrlChar = b := by
      rcases htail with rfl | rfl
      · rw [List.append_nil]
        exact List.takeWhile_eq_self_iff.mpr hbmem
      · rw [List.takeWhile_append_of_pos hbmem,
          List.takeWhile_cons_of_neg (by simp [isUrlChar]), List.append_nil]
    have hdrop2 : (b ++ tail).dropWhile isUrlChar = tail := by
      rcases htail with rfl | rfl
      · rw [List.append_nil]
        exact List.dropWhile_eq_nil_iff.mpr hbmem
      · rw [List.dropWhile_append_of_pos hbmem,
          List.dropWhile_cons_of_neg (by simp [isUrlChar])]
    unfold matchOwnerRepo
    rw [htake, hdrop]
    simp only [List.tail_cons, htake2, hdrop2]
    refine Bool.and_eq_true_iff.mpr ⟨Bool.and_eq_true_iff.mpr
      ⟨Bool.and_eq_true_iff.mpr ⟨by simpa using ha, by simp⟩, by simpa using hb⟩, ?_⟩
    rcases htail with rfl | rfl
    · simp
    · simp

/-- `_validate_github_url` accepts a string exactly when its
whitespace-stripped form has the spec's host-URL shape. -/
theorem validate_iff_shape (url : List Char) :
    validateGithubUrl url = true ↔ specShape (pyStrip url) := by
  unfold validateGithubUrl
  constructor
  · intro h
    obtain ⟨hpre, hmatch⟩ := Bool.and_eq_true_iff.mp h
    obtain ⟨rest, hrest⟩ := List.isPrefixOf_iff_prefix.mp hpre
    rw [← hrest] at hmatch
    rw [List.drop_left] at hmatch
    obtain ⟨a, b, tail, heq, h2, h3, h4, h5, h6⟩ := (matchOwnerRepo_iff rest).mp hmatch
    exact ⟨a, b, tail, by rw [← hrest, heq, List.append_assoc], h2, h3, h4, h5, h6⟩
  · rintro ⟨a, b, tail, heq, h2, h3, h4, h5, h6⟩
    rw [heq, List.append_assoc]
    refine Bool.and_eq_true_iff.mpr ⟨?_, ?_⟩
    · exact List.isPrefixOf_iff_prefix.mpr (List.prefix_append _ _)
    · rw [List.drop_left]
      exact (matchOwnerRepo_iff _).mpr ⟨a, b, tail, rfl, h2, h3, h4, h5, h6⟩

/-- Characters of the validator's class are never Python whitespace. -/
theorem isUrlChar_not_ws {c : Char} (h : isUrlChar c = true) : isPyWs c = false := by
  by_cases hw : isPyWs c = true
  · exfalso
    have hd := hw
    simp only [isPyWs, Bool.or_eq_true_iff, decide_eq_true_eq] at hd
    rcases hd with ((((rfl | rfl) | rfl) | rfl) | rfl) | rfl <;> exact absurd h (by decide)
  · simpa using hw

/-- A string ending in a non-whitespace character, all of which survives
the leading `dropWhile`, is untouched by `strip`. -/
theorem pyStrip_concat_no_ws (Y : List Char) (cl : Char) (h : isPyWs cl = false)
    (h1 : (Y ++ [cl]).dropWhile isPyWs = Y ++ [cl]) : pyStrip (Y ++ [cl]) = Y ++ [cl] := by
  unfold pyStrip
  rw [h1, List.reverse_append, List.reverse_singleton, List.singleton_append,
    List.dropWhile_cons_of_neg (by simp [h]), List.reverse_cons, List.reverse_reverse]

/-- Strings of the spec's shape carry no surrounding whitespace, so `strip`
leaves them unchanged. -/
theorem specShape_strip {s : List Char} (h : specShape s) : pyStrip s = s := by
  obtain ⟨a, b, tail, heq, ha, hall, hb, hball, htail⟩ := h
  subst heq
  have hgh : ghStart.dropWhile isPyWs = ghStart := by decide
  have h1 : ∀ X : List Char, (ghStart ++ X).dropWhile isPyWs = ghStart ++ X := by
    intro X
    rw [List.dropWhile_append, hgh, if_neg (by decide)]
  rcases htail with rfl | rfl
  · obtain ⟨b0, cl, rfl⟩ : ∃ b0 cl, b = b0 ++ [cl] := by
      rcases List.eq_nil_or_concat' b with rfl | ⟨b0, cl, rfl⟩
      · exact absurd rfl hb
      · exact ⟨b0, cl, rfl⟩
    have hcl : isUrlChar cl = true := by
      have := List.all_eq_true.mp hball cl (by simp)
      simpa using this
    have hs : ghStart ++ a ++ '/' :: (b0 ++ [cl] ++ []) =
        (ghStart ++ a ++ '/' :: b0) ++ [cl] := by simp
    rw [hs]
    refine pyStrip_concat_no_ws _ cl (isUrlChar_not_ws hcl) ?_
    rw [← hs, List.append_assoc]
    exact h1 _
  · have hs : ghStart ++ a ++ '/' :: (b ++ ['/']) =
        (ghStart ++ a ++ '/' :: b) ++ ['/'] := by simp
    rw [hs]
    refine pyStrip_concat_no_ws _ '/' (by decide) ?_
    rw [← hs, List.append_assoc]
    exact h1 _

/-- Strings of the spec's shape are accepted by the validator. -/
theorem specShape_validate {s : List Char} (h : specShape s) :
    validateGithubUrl s = true :=
  (validate_iff_shape s).mpr (by rwa [specShape_strip h])

/-- Every string of the spec's shape starts with `h`. -/
theorem specShape_head {s : List Char} (h : specShape s) : s.head? = some 'h' := by
  obtain ⟨a, b, tail, rfl, -, -, -, -, -⟩ := h
  rfl

/-- C4, counterexample to the claim as stated: `" https://github.com/a/b"`
(leading space) does not match the fixed host-URL shape, yet validation
accepts it, because `_validate_github_url` strips surrounding whitespace
before applying the regex (line 1462). -/
theorem c4_counterexample :
    validateGithubUrl (cs r" https://github.com/a/b") = true ∧
    ¬ specShape (cs r" https://github.com/a/b") := by
  refine ⟨by decide, fun h => ?_⟩
  exact absurd (specShape_head h) (by decide)

/-- C4, amended: reference validation is a pure function of the input
string that accepts exactly the strings whose surrounding-whitespace-
stripped form matches the fixed shape `https://github.com/<owner>/<name>[/]`
(owner and name nonempty over the class of word characters, `-` and `.`);
in particular every string of the shape itself is accepted, and on any
rejected string the acquirer fails fast with the invalid-reference outcome
before any network or filesystem action (its action trace is empty). -/
theorem c4_validation :
    (∀ url, validateGithubUrl url = true ↔ specShape (pyStrip url)) ∧
    (∀ s, specShape s → validateGithubUrl s = true) ∧
    (∀ url env, validateGithubUrl url = false →
      cloneRepository url env = (CloneResult.invalidUrl, [])) := by
  refine ⟨validate_iff_shape, fun s h => specShape_validate h, ?_⟩
  intro url env h
  unfold cloneRepository
  rw [if_pos h]

/-- Witness for `c4_validation` at concrete inputs: a shaped URL is
accepted; a malformed reference aborts with an empty action trace. -/
theorem c4_validation_witness :
    validateGithubUrl (cs r"https://github.com/a/b") = true ∧
    cloneRepository (cs r"nope") envAllGood = (CloneResult.invalidUrl, []) :=
  ⟨c4_validation.2.1 (cs r"https://github.com/a/b")
    ⟨cs r"a", cs r"b", [], by decide, by decide, by decide, by decide, by decide, Or.inl rfl⟩,
   c4_validation.2.2 (cs r"nope") envAllGood (by decide)⟩
